import Mathlib

/-!
# Verification of the Args++ argument parser (`src/args.h`, `src/args.cpp`)

Shallow embedding of the Args++ C++11 command-line parsing library.

Modelling conventions:
* C++ `std::string` is modelled as `List Char` (`Str`); tokens and names are
  `Str`, a token stream is `List Str` (the C++ `ArgStream` is a consumable
  front-popping list).
* The registries `map<string, shared_ptr<Flag>>` etc. are modelled as an
  entity store (`List FlagE`, `List OptionE`, `List ArgParser`) indexed by a
  numeric id, plus an alias table `List (Str × Nat)`.  `map[alias] = entity`
  insertion is modelled by consing the new binding in front (lookup takes the
  first hit, so the newest binding wins, exactly as assignment to
  `std::map::operator[]` overwrites).  Aliases registered together share one
  id, which models the shared `shared_ptr` entity.
* The process-terminating actions `exitError` / `exitHelp` / `exitVersion`
  become the `Except` error values `ExitKind.err` / `.help` / `.ver`; a parse
  that returns normally is `Except.ok` carrying the mutated parser.
* The `Callback` function pointer only performs output (it receives the child
  parser by const reference) and the shared `OutputContext` only buffers text,
  so neither is carried in the state; the diagnostic text that
  `ArgParser::exitError` would flush is carried in `ExitKind.err`.
* The recursive `ArgParser::parse(ArgStream&)` loop is implemented as the
  fuel-indexed structural function `parseStreamF`; each loop iteration
  consumes at least one stream token and exactly one unit of fuel, so
  `parseStream`, which supplies `stream.length` fuel, never reaches the
  out-of-fuel branch (`parseStreamF_congr` below proves fuel irrelevance).
  A matched command's child parser consumes the remainder of the stream
  (its own loop runs until the stream is empty), hence after the recursive
  child call the parent resumes its loop with an exhausted stream, which is
  inlined as `finishParse`.
-/

set_option linter.unusedVariables false

namespace Argspp

abbrev Str := List Char

/-- Exact-key lookup in an alias table, first binding wins
(models `ArgParser::lookup` over `std::map`, where `operator[]` assignment
overwrote any older binding). -/
def lookup (m : List (Str × Nat)) (key : Str) : Option Nat :=
  match m with
  | [] => none
  | kv :: rest => if kv.1 = key then some kv.2 else lookup rest key

/-- In-place update of the entity at index `i` (models mutation through the
shared pointer held in the registry). -/
def modifyIdx (l : List α) (i : Nat) (f : α → α) : List α :=
  match l, i with
  | [], _ => []
  | a :: rest, 0 => f a :: rest
  | a :: rest, Nat.succ n => a :: modifyIdx rest n f

/-- `struct ArgParser::Flag`: an occurrence counter plus hint text. -/
structure FlagE where
  count : Nat
  hinttext : Str
deriving Repr, DecidableEq

/-- `struct ArgParser::Option`: accumulated values, fallback, hint text. -/
structure OptionE where
  values : List Str
  fallback : Str
  hinttext : Str
deriving Repr, DecidableEq

/-- `ArgParser::SizeCheck`'s `enum { no_check, check_eq, check_ge }`. -/
inductive CheckMode where
  | no_check
  | check_eq
  | check_ge
deriving Repr, DecidableEq

/-- `struct ArgParser::SizeCheck`.  The default-constructed value
(`argcount()` in the `ArgParser` constructor) is `⟨0, .no_check⟩`. -/
structure SizeCheck where
  size : Nat
  mode : CheckMode
deriving Repr, DecidableEq

/-- `ArgParser::SizeCheck::isValid`. -/
def SizeCheck.isValid (c : SizeCheck) (number : Nat) : Bool :=
  decide (c.mode = .no_check) ||
  (decide (c.mode = .check_eq) && decide (number = c.size)) ||
  (decide (c.mode = .check_ge) && decide (c.size ≤ number))

/-- The scalar state of one `ArgParser` (everything except the child-parser
store that backs the `commands` registry). -/
structure PState where
  options : List (Str × Nat)
  flags : List (Str × Nat)
  commands : List (Str × Nat)
  optionStore : List OptionE
  flagStore : List FlagE
  command_name : Str
  helptext : Str
  version : Str
  hinttext : Str
  argcount : SizeCheck
  pos_args : List Str
deriving Repr, DecidableEq

/-- `class ArgParser`: scalar state plus the store of child command parsers
(the `commands` alias table in `PState` holds indices into `commandStore`). -/
inductive ArgParser where
  | mk (st : PState) (commandStore : List ArgParser)

def ArgParser.st : ArgParser → PState
  | .mk s _ => s

def ArgParser.commandStore : ArgParser → List ArgParser
  | .mk _ c => c

def ArgParser.modifySt (p : ArgParser) (f : PState → PState) : ArgParser :=
  match p with
  | .mk s c => .mk (f s) c

def ArgParser.setChild (p : ArgParser) (i : Nat) (c : ArgParser) : ArgParser :=
  match p with
  | .mk s ch => .mk s (ch.set i c)

/-- The `ArgParser(helpmsg, version)` constructor: empty registries, empty
positional list, value-initialized `argcount`. -/
def ArgParser.make (helpmsg ver : Str) : ArgParser :=
  .mk ⟨[], [], [], [], [], [], helpmsg, ver, [], ⟨0, .no_check⟩, []⟩ []

/-- `istringstream stream(name); while (stream >> alias) ...`: split an alias
string on whitespace. -/
def wordsAux : List Char → List Char → List Str
  | [], acc => if acc = [] then [] else [acc.reverse]
  | c :: rest, acc =>
    if c.isWhitespace then
      if acc = [] then wordsAux rest [] else acc.reverse :: wordsAux rest []
    else wordsAux rest (c :: acc)

def splitWords (s : Str) : List Str := wordsAux s []

/-- Bind every alias in `names` to entity id `id` (the loop body of
`ArgParser::flag` / `ArgParser::option` / `ArgParser::command`). -/
def registerAliases (m : List (Str × Nat)) (names : Str) (id : Nat) :
    List (Str × Nat) :=
  (splitWords names).foldl (fun acc a => (a, id) :: acc) m

/-- `ArgParser::flag`: one shared `Flag` inserted under every alias. -/
def ArgParser.flag (p : ArgParser) (name : Str) (hint : Str := []) : ArgParser :=
  p.modifySt fun s =>
    { s with flags := registerAliases s.flags name s.flagStore.length,
             flagStore := s.flagStore ++ [⟨0, hint⟩] }

/-- `ArgParser::option`: one shared `Option` inserted under every alias. -/
def ArgParser.option (p : ArgParser) (name : Str) (fallback : Str := [])
    (hint : Str := []) : ArgParser :=
  p.modifySt fun s =>
    { s with options := registerAliases s.options name s.optionStore.length,
             optionStore := s.optionStore ++ [⟨[], fallback, hint⟩] }

/-- `ArgParser::command`: creates a child parser, registers it under every
alias, resets the parent's `argcount` to `{0, check_eq}`, and returns the
child's id so the caller can keep configuring it (the C++ version returns a
reference to the child). -/
def ArgParser.command (p : ArgParser) (name : Str) (helpmsg : Str := [])
    (hint : Str := []) : ArgParser × Nat :=
  match p with
  | .mk s ch =>
    (.mk { s with commands := registerAliases s.commands name ch.length,
                  argcount := ⟨0, .check_eq⟩ }
         (ch ++ [.mk ⟨[], [], [], [], [], [], helpmsg, [], hint,
                      ⟨0, .no_check⟩, []⟩ []]),
     ch.length)

/-- `ArgParser::setArgsRequired`. -/
def ArgParser.setArgsRequired (p : ArgParser) (count : Nat)
    (accept_more : Bool := false) : ArgParser :=
  p.modifySt fun s =>
    { s with argcount := ⟨count, if accept_more then .check_ge else .check_eq⟩ }

/-- `ArgParser::count`: flag counter, else option value count, else 0. -/
def ArgParser.count (p : ArgParser) (name : Str) : Nat :=
  match lookup p.st.flags name with
  | some fid => ((p.st.flagStore[fid]?).map FlagE.count).getD 0
  | none =>
    match lookup p.st.options name with
    | some oid => ((p.st.optionStore[oid]?).map (fun o => o.values.length)).getD 0
    | none => 0

/-- `ArgParser::found`: `count(name) > 0`. -/
def ArgParser.found (p : ArgParser) (name : Str) : Bool :=
  decide (0 < p.count name)

/-- `ArgParser::value`: last stored value, else the fallback, else the empty
string for unregistered names. -/
def ArgParser.value (p : ArgParser) (name : Str) : Str :=
  match lookup p.st.options name with
  | some oid =>
    match p.st.optionStore[oid]? with
    | some o =>
      match o.values.getLast? with
      | some v => v
      | none => o.fallback
    | none => []
  | none => []

/-- `ArgParser::values`: all stored values, empty for unregistered names. -/
def ArgParser.values (p : ArgParser) (name : Str) : List Str :=
  match lookup p.st.options name with
  | some oid => ((p.st.optionStore[oid]?).map OptionE.values).getD []
  | none => []

/-- `ArgParser::arg(index)`: positional argument or the empty string. -/
def ArgParser.arg (p : ArgParser) (index : Nat) : Str :=
  (p.st.pos_args[index]?).getD []

/-- `ArgParser::commandFound`. -/
def ArgParser.commandFound (p : ArgParser) : Bool :=
  decide (p.st.command_name ≠ [])

/-- The three `[[noreturn]]` terminal actions: `exitError` carries the
diagnostic that was buffered into the output context, `exitHelp` / `exitVersion`
carry the text they print. -/
inductive ExitKind where
  | err (msg : Str)
  | help (text : Str)
  | ver (text : Str)
deriving Repr, DecidableEq

/-- `arg.find('=')` + the two `substr` calls: split at the first `'='`. -/
def splitFirstEq (cs : Str) : Option (Str × Str) :=
  match cs with
  | [] => none
  | c :: rest =>
    if c = '=' then some ([], rest)
    else
      match splitFirstEq rest with
      | some nv => some (c :: nv.1, nv.2)
      | none => none

def ArgParser.pushOptVal (p : ArgParser) (oid : Nat) (v : Str) : ArgParser :=
  p.modifySt fun s =>
    { s with optionStore :=
        modifyIdx s.optionStore oid (fun o => { o with values := o.values ++ [v] }) }

def ArgParser.incrFlag (p : ArgParser) (fid : Nat) : ArgParser :=
  p.modifySt fun s =>
    { s with flagStore :=
        modifyIdx s.flagStore fid (fun fl => { fl with count := fl.count + 1 }) }

def ArgParser.appendPos (p : ArgParser) (a : Str) : ArgParser :=
  p.modifySt fun s => { s with pos_args := s.pos_args ++ [a] }

/-- `ArgParser::parseEqualsOption`: the name must be a registered option and
the value must be non-empty. -/
def parseEqualsOption (p : ArgParser) (pfx name value : Str) :
    Except ExitKind ArgParser :=
  match lookup p.st.options name with
  | some oid =>
    if value ≠ [] then .ok (p.pushOptVal oid value)
    else .error (.err ("Error: missing value for ".toList ++ pfx ++ name
                        ++ ".\n".toList))
  | none =>
    .error (.err ("Error: ".toList ++ pfx ++ name
                   ++ " is not a recognised option.\n".toList))

/-- `ArgParser::parseLongOption` on the token body after the `--` prefix;
returns the mutated parser together with the remaining stream (an option
without `=` consumes the next stream token as its value). -/
def parseLongOption (p : ArgParser) (a : Str) (stream : List Str) :
    Except ExitKind (ArgParser × List Str) :=
  match splitFirstEq a with
  | some nv => (parseEqualsOption p "--".toList nv.1 nv.2).map (fun q => (q, stream))
  | none =>
    match lookup p.st.flags a with
    | some fid => .ok (p.incrFlag fid, stream)
    | none =>
      match lookup p.st.options a with
      | some oid =>
        match stream with
        | v :: rest => .ok (p.pushOptVal oid v, rest)
        | [] => .error (.err ("Error: missing argument for --".toList ++ a
                               ++ ".\n".toList))
      | none =>
        if a = "help".toList ∧ p.st.helptext ≠ [] then .error (.help p.st.helptext)
        else if a = "version".toList ∧ p.st.version ≠ [] then
          .error (.ver p.st.version)
        else
          .error (.err ("Error: --".toList ++ a
                         ++ " is not a recognised flag or option.\n".toList))

/-- The `for (char c : arg)` loop of `ArgParser::parseShortOption`: each
character resolves independently; an option character consumes the next
stream token.  `full` is the whole cluster (used in diagnostics). -/
def parseShortChars (p : ArgParser) (full : Str) (cs : List Char)
    (stream : List Str) : Except ExitKind (ArgParser × List Str) :=
  match cs with
  | [] => .ok (p, stream)
  | c :: rest =>
    match lookup p.st.flags [c] with
    | some fid => parseShortChars (p.incrFlag fid) full rest stream
    | none =>
      match lookup p.st.options [c] with
      | some oid =>
        match stream with
        | v :: srest => parseShortChars (p.pushOptVal oid v) full rest srest
        | [] =>
          .error (.err (if 1 < full.length then
              "Error: missing argument for '".toList ++ [c] ++ "' in -".toList
                ++ full ++ ".\n".toList
            else
              "Error: missing argument for -".toList ++ [c] ++ ".\n".toList))
      | none =>
        if c = 'h' ∧ p.st.helptext ≠ [] then .error (.help p.st.helptext)
        else if c = 'v' ∧ p.st.version ≠ [] then .error (.ver p.st.version)
        else
          .error (.err (if 1 < full.length then
              "Error: '".toList ++ [c] ++ "' in -".toList ++ full
                ++ " is not a recognised flag or option.\n".toList
            else
              "Error: -".toList ++ [c]
                ++ " is not a recognised flag or option.\n".toList))

/-- `ArgParser::parseShortOption` on the token body after the `-` prefix. -/
def parseShortOption (p : ArgParser) (a : Str) (stream : List Str) :
    Except ExitKind (ArgParser × List Str) :=
  match splitFirstEq a with
  | some nv => (parseEqualsOption p "-".toList nv.1 nv.2).map (fun q => (q, stream))
  | none => parseShortChars p a a stream

def errInvalidArgs : Str := "Error: invalid number of arguments.\n".toList

/-- The check after `ArgParser::parse`'s `while` loop has exhausted the
stream: `argcount.isValid(pos_args.size())` or `exitError`. -/
def finishParse (p : ArgParser) : Except ExitKind ArgParser :=
  if p.st.argcount.isValid p.st.pos_args.length then .ok p
  else .error (.err errInvalidArgs)

/-- Command lookup performed for the current token: only consulted while
`is_first_arg` is still true.  Returns the id and the child parser (the C++
`lookup` returns the `shared_ptr`'s raw pointer; an id without a store entry
cannot arise from the registration API and behaves like a null pointer). -/
def cmdChild (p : ArgParser) (is_first : Bool) (a : Str) :
    Option (Nat × ArgParser) :=
  if is_first then
    match lookup p.st.commands a with
    | some cid => (p.commandStore[cid]?).map (fun c => (cid, c))
    | none => none
  else none

/-- The token-classification loop of `ArgParser::parse(ArgStream&)`, indexed
by fuel.  Every iteration consumes at least one token and one unit of fuel,
so length-many fuel is always enough (`parseStreamF_congr`).  Notes:
* the `"--"` branch drains the stream into `pos_args` and the loop then
  terminates, inlined as `finishParse`;
* a matched command's child parser consumes the entire remaining stream, so
  the parent's loop terminates right after the child call, again inlined as
  `finishParse`;
* `is_first_arg` is only set to false in the final plain-positional branch,
  exactly as in the source. -/
def parseStreamF (fuel : Nat) (p : ArgParser) (is_first : Bool)
    (stream : List Str) : Except ExitKind ArgParser :=
  match stream with
  | [] => finishParse p
  | a :: rest =>
    match fuel with
    | 0 => .error (.err "out of fuel".toList)
    | Nat.succ fuel =>
      if a = ['-', '-'] then
        finishParse (p.modifySt fun s => { s with pos_args := s.pos_args ++ rest })
      else if a.take 2 = ['-', '-'] then
        match parseLongOption p (a.drop 2) rest with
        | .ok pr => parseStreamF fuel pr.1 is_first pr.2
        | .error e => .error e
      else if a.head? = some '-' then
        if a.length = 1 ∨ (a.getD 1 'a').isDigit then
          parseStreamF fuel (p.appendPos a) is_first rest
        else
          match parseShortOption p (a.drop 1) rest with
          | .ok pr => parseStreamF fuel pr.1 is_first pr.2
          | .error e => .error e
      else
        match cmdChild p is_first a with
        | some cc =>
          match parseStreamF fuel cc.2 true rest with
          | .ok child2 =>
            finishParse ((p.setChild cc.1 child2).modifySt
              fun s => { s with command_name := a })
          | .error e => .error e
        | none =>
          if is_first ∧ a = "help".toList ∧ p.st.commands ≠ [] then
            match rest with
            | nm :: _ =>
              match lookup p.st.commands nm with
              | some cid =>
                match p.commandStore[cid]? with
                | some cp => .error (.help cp.st.helptext)
                | none =>
                  .error (.err ("Error: '".toList ++ nm
                                 ++ "' is not a recognised command.\n".toList))
              | none =>
                .error (.err ("Error: '".toList ++ nm
                               ++ "' is not a recognised command.\n".toList))
            | [] =>
              .error (.err "Error: the help command requires an argument.\n".toList)
          else
            parseStreamF fuel (p.appendPos a) false rest

/-- `ArgParser::parse(ArgStream&)`, entered with `is_first_arg = true` by the
public overloads.  Supplying `stream.length` fuel is exact: each loop
iteration consumes at least one token. -/
def parseStream (p : ArgParser) (is_first : Bool) (stream : List Str) :
    Except ExitKind ArgParser :=
  parseStreamF stream.length p is_first stream

/-- `ArgParser::parse(vector<string> const&)`. -/
def ArgParser.parse (p : ArgParser) (argv : List Str) :
    Except ExitKind ArgParser :=
  parseStream p true argv

/-- `ArgParser::parse(int argc, char **argv)`: builds a stream from
`&argv[1] .. &argv[argc]` only when `argc > 1`, otherwise returns without
touching `argv` or the parser. -/
def ArgParser.parseCLine (p : ArgParser) (argc : Nat) (argv : List Str) :
    Except ExitKind ArgParser :=
  if 1 < argc then parseStream p true ((argv.drop 1).take (argc - 1))
  else .ok p

/-! ## Value-supply scripts

A `Supply` is one way of handing a value to a registered option on the
command line: `--name=v`, `--name v`, or `-c v` for a single-character
alias `c`.  `scriptTokens` renders a whole script as a token stream. -/

inductive Supply where
  | eqF (v : Str)
  | longF (v : Str)
  | shortF (v : Str)
deriving Repr, DecidableEq

def Supply.val : Supply → Str
  | .eqF v => v
  | .longF v => v
  | .shortF v => v

def supplyTokens (long : Str) (c : Char) : Supply → List Str
  | .eqF v => ['-' :: '-' :: (long ++ '=' :: v)]
  | .longF v => ['-' :: '-' :: long, v]
  | .shortF v => [['-', c], v]

def scriptTokens (long : Str) (c : Char) : List Supply → List Str
  | [] => []
  | s :: rest => supplyTokens long c s ++ scriptTokens long c rest

/-! ## Concrete parsers used as test vehicles -/

/-- A parser with flag `a` and command `cmd` (in this order of registration),
as in `parser.flag("a"); parser.command("cmd");`. -/
def flagCmdParser : ArgParser :=
  (((ArgParser.make [] []).flag ['a'] []).command "cmd".toList [] []).1

/-- A parser with the two single-character options `a` and `b`. -/
def optClusterParser : ArgParser :=
  ((ArgParser.make [] []).option ['a'] [] []).option ['b'] [] []

/-- A parser with option `bar b` and fallback `dft`, as in
`parser.option("bar b", "dft");`. -/
def barOptParser : ArgParser :=
  (ArgParser.make [] []).option "bar b".toList "dft".toList []

/-- A parser with flag `foo f`, as in `parser.flag("foo f");`. -/
def fooFlagParser : ArgParser :=
  (ArgParser.make [] []).flag "foo f".toList []

/-- A parser with the two single-character flags `a` and `b`. -/
def abFlagParser : ArgParser :=
  ((ArgParser.make [] []).flag ['a'] []).flag ['b'] []

/-! ## Basic lemmas about the state helpers -/

@[simp] theorem st_modifySt (p : ArgParser) (f : PState → PState) :
    (p.modifySt f).st = f p.st := by
  cases p; rfl

@[simp] theorem commandStore_modifySt (p : ArgParser) (f : PState → PState) :
    (p.modifySt f).commandStore = p.commandStore := by
  cases p; rfl

@[simp] theorem st_setChild (p : ArgParser) (i : Nat) (c : ArgParser) :
    (p.setChild i c).st = p.st := by
  cases p; rfl

theorem modifySt_modifySt (p : ArgParser) (f g : PState → PState) :
    (p.modifySt f).modifySt g = p.modifySt (fun s => g (f s)) := by
  cases p; rfl

@[simp] theorem modifySt_id (p : ArgParser) : p.modifySt (fun s => s) = p := by
  cases p; rfl

theorem modifyIdx_eq_set {l : List α} {i : Nat} {a : α} (f : α → α)
    (h : l[i]? = some a) : modifyIdx l i f = l.set i (f a) := by
  induction l generalizing i with
  | nil => simp at h
  | cons x xs ih =>
    cases i with
    | zero => simp at h; simp [modifyIdx, h]
    | succ n => simp at h; simp [modifyIdx, List.set, ih h]

theorem set_self {l : List α} {i : Nat} {a : α} (h : l[i]? = some a) :
    l.set i a = l := by
  induction l generalizing i with
  | nil => rfl
  | cons x xs ih =>
    cases i with
    | zero => simp at h; simp [List.set, h]
    | succ n => simp at h; simp [List.set, ih h]

theorem lt_length_of_getElem? {l : List α} {i : Nat} {a : α}
    (h : l[i]? = some a) : i < l.length := by
  rcases Nat.lt_or_ge i l.length with hlt | hge
  · exact hlt
  · rw [List.getElem?_eq_none hge] at h; exact absurd h (by simp)

theorem getElem?_set_same {l : List α} {i : Nat} {a b : α}
    (h : l[i]? = some a) : (l.set i b)[i]? = some b :=
  List.getElem?_set_self (lt_length_of_getElem? h)

/-! ## `splitFirstEq` -/

theorem splitFirstEq_of_not_mem {cs : Str} (h : '=' ∉ cs) :
    splitFirstEq cs = none := by
  induction cs with
  | nil => rfl
  | cons c rest ih =>
    simp only [List.mem_cons, not_or] at h
    simp [splitFirstEq, Ne.symm h.1, ih h.2]

theorem splitFirstEq_append {a b : Str} (h : '=' ∉ a) :
    splitFirstEq (a ++ '=' :: b) = some (a, b) := by
  induction a with
  | nil => simp [splitFirstEq]
  | cons c rest ih =>
    simp only [List.mem_cons, not_or] at h
    simp [splitFirstEq, Ne.symm h.1, ih h.2]

/-! ## `registerAliases` lookups -/

theorem lookup_cons (kv : Str × Nat) (m : List (Str × Nat)) (key : Str) :
    lookup (kv :: m) key = if kv.1 = key then some kv.2 else lookup m key := rfl

theorem lookup_registerAliases_mem {ws : List Str} {a : Str} {v : Nat}
    (m : List (Str × Nat)) (h : a ∈ ws ∨ lookup m a = some v) :
    lookup ((ws.foldl (fun acc w => (w, v) :: acc) m)) a = some v := by
  induction ws generalizing m with
  | nil => simpa using h.resolve_left (by simp)
  | cons w rest ih =>
    simp only [List.foldl_cons]
    apply ih
    rcases h with hmem | hm
    · rcases List.mem_cons.mp hmem with rfl | hr
      · by_cases hrest : a ∈ rest
        · exact Or.inl hrest
        · exact Or.inr (by simp [lookup_cons])
      · exact Or.inl hr
    · by_cases hw : w = a
      · subst hw; exact Or.inr (by simp [lookup_cons])
      · exact Or.inr (by simp [lookup_cons, hw, hm])

theorem lookup_registerAliases {names a : Str} {v : Nat}
    (m : List (Str × Nat)) (h : a ∈ splitWords names) :
    lookup (registerAliases m names v) a = some v :=
  lookup_registerAliases_mem m (Or.inl h)

/-! ## Invariants of the per-token helpers

`parseEqualsOption`, `parseLongOption` and `parseShortChars` mutate only the
flag/option entity stores: the alias registries, the positional list, the
argument-count constraint and the child-parser store are untouched, and they
consume at most as many stream tokens as are available. -/

@[simp] theorem st_pushOptVal (p : ArgParser) (oid : Nat) (v : Str) :
    (p.pushOptVal oid v).st =
      { p.st with
        optionStore := (modifyIdx p.st.optionStore oid
          fun o => { o with values := o.values ++ [v] }) } := by
  cases p; rfl

@[simp] theorem commandStore_pushOptVal (p : ArgParser) (oid : Nat) (v : Str) :
    (p.pushOptVal oid v).commandStore = p.commandStore := by
  cases p; rfl

@[simp] theorem st_incrFlag (p : ArgParser) (fid : Nat) :
    (p.incrFlag fid).st =
      { p.st with
        flagStore := (modifyIdx p.st.flagStore fid
          fun fl => { fl with count := fl.count + 1 }) } := by
  cases p; rfl

@[simp] theorem commandStore_incrFlag (p : ArgParser) (fid : Nat) :
    (p.incrFlag fid).commandStore = p.commandStore := by
  cases p; rfl

@[simp] theorem st_appendPos (p : ArgParser) (a : Str) :
    (p.appendPos a).st = { p.st with pos_args := p.st.pos_args ++ [a] } := by
  cases p; rfl

@[simp] theorem commandStore_appendPos (p : ArgParser) (a : Str) :
    (p.appendPos a).commandStore = p.commandStore := by
  cases p; rfl

@[simp] theorem commandStore_setChild (p : ArgParser) (i : Nat) (c : ArgParser) :
    (p.setChild i c).commandStore = p.commandStore.set i c := by
  cases p; rfl

@[simp] theorem st_flag (p : ArgParser) (name hint : Str) :
    (p.flag name hint).st =
      { p.st with
        flags := registerAliases p.st.flags name p.st.flagStore.length,
        flagStore := p.st.flagStore ++ [⟨0, hint⟩] } := by
  cases p; rfl

@[simp] theorem st_option (p : ArgParser) (name fallback hint : Str) :
    (p.option name fallback hint).st =
      { p.st with
        options := registerAliases p.st.options name p.st.optionStore.length,
        optionStore := p.st.optionStore ++ [⟨[], fallback, hint⟩] } := by
  cases p; rfl

@[simp] theorem st_command_fst (p : ArgParser) (name helpmsg hint : Str) :
    (p.command name helpmsg hint).1.st =
      { p.st with
        commands := registerAliases p.st.commands name p.commandStore.length,
        argcount := ⟨0, .check_eq⟩ } := by
  cases p; rfl

@[simp] theorem st_setArgsRequired (p : ArgParser) (n : Nat) (more : Bool) :
    (p.setArgsRequired n more).st =
      { p.st with
        argcount := ⟨n, if more then .check_ge else .check_eq⟩ } := by
  cases p; rfl

theorem isValid_check_eq (n k : Nat) :
    SizeCheck.isValid ⟨n, .check_eq⟩ k = true ↔ k = n := by
  simp [SizeCheck.isValid]

theorem isValid_check_ge (n k : Nat) :
    SizeCheck.isValid ⟨n, .check_ge⟩ k = true ↔ n ≤ k := by
  simp [SizeCheck.isValid]

/-- The registry/constraint state a successful parse step never touches. -/
def Preserves (p q : ArgParser) : Prop :=
  q.st.flags = p.st.flags ∧ q.st.options = p.st.options ∧
  q.st.commands = p.st.commands ∧ q.st.argcount = p.st.argcount

theorem Preserves.refl (p : ArgParser) : Preserves p p :=
  ⟨rfl, rfl, rfl, rfl⟩

theorem Preserves.trans {p q r : ArgParser} (h1 : Preserves p q)
    (h2 : Preserves q r) : Preserves p r := by
  obtain ⟨a1, b1, c1, d1⟩ := h1
  obtain ⟨a2, b2, c2, d2⟩ := h2
  exact ⟨a2.trans a1, b2.trans b1, c2.trans c1, d2.trans d1⟩

theorem finishParse_ok {p r : ArgParser} (h : finishParse p = .ok r) :
    r = p ∧ p.st.argcount.isValid p.st.pos_args.length = true := by
  unfold finishParse at h
  split at h
  · exact ⟨(Except.ok.injEq .. ▸ h).symm, by assumption⟩
  · exact absurd h (by simp)

theorem parseEqualsOption_ok {p q : ArgParser} {pfx name value : Str}
    (h : parseEqualsOption p pfx name value = .ok q) :
    ∃ oid, lookup p.st.options name = some oid ∧ value ≠ [] ∧
      q = p.pushOptVal oid value := by
  unfold parseEqualsOption at h
  split at h
  · next oid hoid =>
    split at h
    · exact ⟨oid, hoid, by assumption, by simp_all⟩
    · exact absurd h (by simp)
  · exact absurd h (by simp)

theorem pushOptVal_preserves (p : ArgParser) (oid : Nat) (v : Str) :
    Preserves p (p.pushOptVal oid v) ∧
    (p.pushOptVal oid v).st.pos_args = p.st.pos_args ∧
    (p.pushOptVal oid v).commandStore = p.commandStore := by
  refine ⟨⟨?_, ?_, ?_, ?_⟩, ?_, ?_⟩ <;> simp

theorem incrFlag_preserves (p : ArgParser) (fid : Nat) :
    Preserves p (p.incrFlag fid) ∧
    (p.incrFlag fid).st.pos_args = p.st.pos_args ∧
    (p.incrFlag fid).commandStore = p.commandStore := by
  refine ⟨⟨?_, ?_, ?_, ?_⟩, ?_, ?_⟩ <;> simp

theorem parseLongOption_inv {p : ArgParser} {a : Str} {s : List Str}
    {pr : ArgParser × List Str} (h : parseLongOption p a s = .ok pr) :
    Preserves p pr.1 ∧ pr.1.st.pos_args = p.st.pos_args ∧
    pr.1.commandStore = p.commandStore ∧ pr.2.length ≤ s.length := by
  unfold parseLongOption at h
  split at h
  · next nv heq =>
    cases hpe : parseEqualsOption p "--".toList nv.1 nv.2 with
    | ok q =>
      rw [hpe] at h
      simp only [Except.map, Except.ok.injEq] at h
      obtain ⟨oid, _, _, rfl⟩ := parseEqualsOption_ok hpe
      obtain ⟨h1, h2, h3⟩ := pushOptVal_preserves p oid nv.2
      exact h ▸ ⟨h1, h2, h3, Nat.le_refl _⟩
    | error e => rw [hpe] at h; exact absurd h (by simp [Except.map])
  · split at h
    · next fid hf =>
      obtain ⟨h1, h2, h3⟩ := incrFlag_preserves p fid
      cases h
      exact ⟨h1, h2, h3, Nat.le_refl _⟩
    · split at h
      · next oid ho =>
        split at h
        · next v rest =>
          cases h
          obtain ⟨h1, h2, h3⟩ := pushOptVal_preserves p oid v
          exact ⟨h1, h2, h3, by simp⟩
        · exact absurd h (by simp)
      · split at h
        · exact absurd h (by simp)
        · split at h
          · exact absurd h (by simp)
          · exact absurd h (by simp)

theorem parseShortChars_inv {cs : List Char} {p : ArgParser} {full : Str}
    {s : List Str} {pr : ArgParser × List Str}
    (h : parseShortChars p full cs s = .ok pr) :
    Preserves p pr.1 ∧ pr.1.st.pos_args = p.st.pos_args ∧
    pr.1.commandStore = p.commandStore ∧ pr.2.length ≤ s.length := by
  induction cs generalizing p s with
  | nil =>
    unfold parseShortChars at h
    cases h
    exact ⟨Preserves.refl p, rfl, rfl, Nat.le_refl _⟩
  | cons c rest ih =>
    unfold parseShortChars at h
    split at h
    · next fid hf =>
      obtain ⟨h1, h2, h3, h4⟩ := ih h
      obtain ⟨g1, g2, g3⟩ := incrFlag_preserves p fid
      exact ⟨g1.trans h1, h2.trans g2, h3.trans g3, h4⟩
    · split at h
      · next oid ho =>
        split at h
        · next v srest =>
          obtain ⟨h1, h2, h3, h4⟩ := ih h
          obtain ⟨g1, g2, g3⟩ := pushOptVal_preserves p oid v
          exact ⟨g1.trans h1, h2.trans g2, h3.trans g3, by simp; omega⟩
        · exact absurd h (by simp)
      · split at h
        · exact absurd h (by simp)
        · split at h
          · exact absurd h (by simp)
          · exact absurd h (by simp)

theorem parseShortOption_inv {p : ArgParser} {a : Str} {s : List Str}
    {pr : ArgParser × List Str} (h : parseShortOption p a s = .ok pr) :
    Preserves p pr.1 ∧ pr.1.st.pos_args = p.st.pos_args ∧
    pr.1.commandStore = p.commandStore ∧ pr.2.length ≤ s.length := by
  unfold parseShortOption at h
  split at h
  · next nv heq =>
    cases hpe : parseEqualsOption p "-".toList nv.1 nv.2 with
    | ok q =>
      rw [hpe] at h
      simp only [Except.map, Except.ok.injEq] at h
      obtain ⟨oid, _, _, rfl⟩ := parseEqualsOption_ok hpe
      obtain ⟨h1, h2, h3⟩ := pushOptVal_preserves p oid nv.2
      exact h ▸ ⟨h1, h2, h3, Nat.le_refl _⟩
    | error e => rw [hpe] at h; exact absurd h (by simp [Except.map])
  · exact parseShortChars_inv h

/-! ## Master invariant of the parse loop

A parse that returns normally leaves the alias registries and the
argument-count constraint untouched and has passed the final
`argcount.isValid(pos_args.size())` check. -/

@[simp] theorem parseStreamF_nil (fuel : Nat) (p : ArgParser) (f : Bool) :
    parseStreamF fuel p f [] = finishParse p := by
  cases fuel <;> rfl

theorem parseStreamF_ok_inv :
    ∀ (fuel : Nat) (p : ArgParser) (f : Bool) (s : List Str) (r : ArgParser),
    parseStreamF fuel p f s = .ok r →
    Preserves p r ∧ r.st.argcount.isValid r.st.pos_args.length = true := by
  intro fuel
  induction fuel with
  | zero =>
    intro p f s r h
    cases s with
    | nil =>
      rw [parseStreamF_nil] at h
      obtain ⟨rfl, hv⟩ := finishParse_ok h
      exact ⟨Preserves.refl _, hv⟩
    | cons a rest => exact absurd h (by simp [parseStreamF])
  | succ fuel ih =>
    intro p f s r h
    cases s with
    | nil =>
      rw [parseStreamF_nil] at h
      obtain ⟨rfl, hv⟩ := finishParse_ok h
      exact ⟨Preserves.refl _, hv⟩
    | cons a rest =>
      simp only [parseStreamF] at h
      split at h
      · -- "--" branch
        obtain ⟨rfl, hv⟩ := finishParse_ok h
        exact ⟨⟨by simp, by simp, by simp, by simp⟩, hv⟩
      · split at h
        · -- long option branch
          split at h
          · next pr hlo =>
            obtain ⟨h1, _, _, _⟩ := parseLongOption_inv hlo
            obtain ⟨h2, hv⟩ := ih _ _ _ _ h
            exact ⟨h1.trans h2, hv⟩
          · exact absurd h (by simp)
        · split at h
          · split at h
            · -- dash-positional branch
              obtain ⟨h2, hv⟩ := ih _ _ _ _ h
              have g : Preserves p (p.appendPos a) :=
                ⟨by simp, by simp, by simp, by simp⟩
              exact ⟨g.trans h2, hv⟩
            · -- short option branch
              split at h
              · next pr hso =>
                obtain ⟨h1, _, _, _⟩ := parseShortOption_inv hso
                obtain ⟨h2, hv⟩ := ih _ _ _ _ h
                exact ⟨h1.trans h2, hv⟩
              · exact absurd h (by simp)
          · split at h
            · -- command dispatch branch
              split at h
              · obtain ⟨rfl, hv⟩ := finishParse_ok h
                exact ⟨⟨by simp, by simp, by simp, by simp⟩, hv⟩
              · exact absurd h (by simp)
            · split at h
              · -- automatic help command: all paths exit
                split at h
                · split at h
                  · split at h
                    · exact absurd h (by simp)
                    · exact absurd h (by simp)
                  · exact absurd h (by simp)
                · exact absurd h (by simp)
              · -- plain positional branch
                obtain ⟨h2, hv⟩ := ih _ _ _ _ h
                have g : Preserves p (p.appendPos a) :=
                  ⟨by simp, by simp, by simp, by simp⟩
                exact ⟨g.trans h2, hv⟩

/-! ## Fuel irrelevance -/

theorem parseStreamF_congr :
    ∀ (m n : Nat) (p : ArgParser) (f : Bool) (s : List Str),
    s.length ≤ m → s.length ≤ n →
    parseStreamF m p f s = parseStreamF n p f s := by
  intro m
  induction m with
  | zero =>
    intro n p f s hm hn
    cases s with
    | nil => rw [parseStreamF_nil, parseStreamF_nil]
    | cons a rest => simp at hm
  | succ m ih =>
    intro n p f s hm hn
    cases s with
    | nil => rw [parseStreamF_nil, parseStreamF_nil]
    | cons a rest =>
      cases n with
      | zero => simp at hn
      | succ n =>
        simp only [List.length_cons, Nat.add_le_add_iff_right] at hm hn
        simp only [parseStreamF]
        split
        · rfl
        · split
          · cases hlo : parseLongOption p (a.drop 2) rest with
            | ok pr =>
              obtain ⟨_, _, _, hlen⟩ := parseLongOption_inv hlo
              exact ih n pr.1 f pr.2 (hlen.trans hm) (hlen.trans hn)
            | error e => rfl
          · split
            · split
              · exact ih n (p.appendPos a) f rest hm hn
              · cases hso : parseShortOption p (a.drop 1) rest with
                | ok pr =>
                  obtain ⟨_, _, _, hlen⟩ := parseShortOption_inv hso
                  exact ih n pr.1 f pr.2 (hlen.trans hm) (hlen.trans hn)
                | error e => rfl
            · split
              · next cc hcc =>
                rw [ih n cc.2 true rest hm hn]
              · split
                · rfl
                · exact ih n (p.appendPos a) false rest hm hn

/-- Evaluating the loop with any sufficient fuel agrees with
`parseStream` (which supplies exactly `stream.length`). -/
theorem parseStreamF_eq_parseStream {fuel : Nat} (p : ArgParser) (f : Bool)
    (s : List Str) (h : s.length ≤ fuel) :
    parseStreamF fuel p f s = parseStream p f s :=
  parseStreamF_congr fuel s.length p f s h (Nat.le_refl _)

/-! ## One-step unfolding of the loop, per token class -/

theorem head_of_take2 {a : Str} (h : a.take 2 = ['-', '-']) :
    a.head? = some '-' := by
  cases a with
  | nil => simp at h
  | cons c rest => simp [List.take] at h; simp [h.1]

@[simp] theorem parseStream_nil (p : ArgParser) (f : Bool) :
    parseStream p f [] = finishParse p := by
  unfold parseStream
  exact parseStreamF_nil 0 p f

theorem parseStream_cons_dashdash (p : ArgParser) (f : Bool) (rest : List Str) :
    parseStream p f (['-', '-'] :: rest) =
      finishParse (p.modifySt fun s => { s with pos_args := s.pos_args ++ rest }) := by
  unfold parseStream
  simp [parseStreamF]

theorem parseStream_cons_long {a : Str} (p : ArgParser) (f : Bool)
    (tail : List Str) (hne : a ≠ ['-', '-']) (h2 : a.take 2 = ['-', '-']) :
    parseStream p f (a :: tail) =
      match parseLongOption p (a.drop 2) tail with
      | .ok pr => parseStream pr.1 f pr.2
      | .error e => .error e := by
  unfold parseStream
  simp only [List.length_cons, parseStreamF, if_neg hne, if_pos h2]
  cases hlo : parseLongOption p (a.drop 2) tail with
  | ok pr =>
    obtain ⟨_, _, _, hlen⟩ := parseLongOption_inv hlo
    exact parseStreamF_eq_parseStream pr.1 f pr.2 hlen
  | error e => rfl

theorem parseStream_cons_dashpos {a : Str} (p : ArgParser) (f : Bool)
    (tail : List Str) (hne : a ≠ ['-', '-']) (h2 : a.take 2 ≠ ['-', '-'])
    (h1 : a.head? = some '-') (hlen : a.length = 1 ∨ (a.getD 1 'a').isDigit) :
    parseStream p f (a :: tail) = parseStream (p.appendPos a) f tail := by
  unfold parseStream
  simp only [List.length_cons, parseStreamF, if_neg hne, if_neg h2, if_pos h1,
    if_pos hlen]

theorem parseStream_cons_short {a : Str} (p : ArgParser) (f : Bool)
    (tail : List Str) (hne : a ≠ ['-', '-']) (h2 : a.take 2 ≠ ['-', '-'])
    (h1 : a.head? = some '-') (hlen : ¬(a.length = 1 ∨ (a.getD 1 'a').isDigit)) :
    parseStream p f (a :: tail) =
      match parseShortOption p (a.drop 1) tail with
      | .ok pr => parseStream pr.1 f pr.2
      | .error e => .error e := by
  unfold parseStream
  simp only [List.length_cons, parseStreamF, if_neg hne, if_neg h2, if_pos h1,
    if_neg hlen]
  cases hso : parseShortOption p (a.drop 1) tail with
  | ok pr =>
    obtain ⟨_, _, _, hlen'⟩ := parseShortOption_inv hso
    exact parseStreamF_eq_parseStream pr.1 f pr.2 hlen'
  | error e => rfl

theorem parseStream_cons_command {a : Str} {cid : Nat} {child : ArgParser}
    (p : ArgParser) (f : Bool) (rest : List Str) (h1 : a.head? ≠ some '-')
    (hcc : cmdChild p f a = some (cid, child)) :
    parseStream p f (a :: rest) =
      match parseStream child true rest with
      | .ok child2 =>
        finishParse ((p.setChild cid child2).modifySt
          fun s => { s with command_name := a })
      | .error e => .error e := by
  have hne : a ≠ ['-', '-'] := fun h => h1 (by subst h; rfl)
  have h2 : a.take 2 ≠ ['-', '-'] := fun h => h1 (head_of_take2 h)
  unfold parseStream
  simp only [List.length_cons, parseStreamF, if_neg hne, if_neg h2, if_neg h1,
    hcc]

theorem parseStream_cons_plain {a : Str} (p : ArgParser) (f : Bool)
    (rest : List Str) (h1 : a.head? ≠ some '-')
    (hcc : cmdChild p f a = none)
    (hhelp : ¬(f = true ∧ a = "help".toList ∧ p.st.commands ≠ [])) :
    parseStream p f (a :: rest) = parseStream (p.appendPos a) false rest := by
  have hne : a ≠ ['-', '-'] := fun h => h1 (by subst h; rfl)
  have h2 : a.take 2 ≠ ['-', '-'] := fun h => h1 (head_of_take2 h)
  unfold parseStream
  simp only [List.length_cons, parseStreamF, if_neg hne, if_neg h2, if_neg h1,
    hcc]
  first
  | rfl
  | rw [if_neg (by simpa using hhelp)]

/-! ## Value-consuming steps for a registered option

The three token shapes `--name=v`, `--name v`, `-c v` each push one value
onto the shared value sequence of the option the name resolves to and leave
the rest of the parser state unchanged. -/

theorem modifySt_congr {p : ArgParser} {f g : PState → PState}
    (h : f p.st = g p.st) : p.modifySt f = p.modifySt g := by
  cases p with
  | mk s ch => exact congrArg (fun x => ArgParser.mk x ch) h

theorem parseStream_eq_option_step (p : ArgParser) (f : Bool) (name v : Str)
    (tail : List Str) (oid : Nat) (hname : '=' ∉ name)
    (ho : lookup p.st.options name = some oid) (hv : v ≠ []) :
    parseStream p f (('-' :: '-' :: (name ++ '=' :: v)) :: tail) =
      parseStream (p.pushOptVal oid v) f tail := by
  have hne : ('-' :: '-' :: (name ++ '=' :: v)) ≠ ['-', '-'] := by simp
  rw [parseStream_cons_long p f tail hne rfl]
  unfold parseLongOption
  rw [show ('-' :: '-' :: (name ++ '=' :: v)).drop 2 = name ++ '=' :: v from rfl,
    splitFirstEq_append hname]
  dsimp only
  unfold parseEqualsOption
  rw [ho]
  dsimp only
  rw [if_pos hv]
  rfl

theorem parseStream_long_option_step (p : ArgParser) (f : Bool) (name v : Str)
    (tail : List Str) (oid : Nat) (hn : name ≠ []) (hname : '=' ∉ name)
    (hf : lookup p.st.flags name = none)
    (ho : lookup p.st.options name = some oid) :
    parseStream p f (('-' :: '-' :: name) :: v :: tail) =
      parseStream (p.pushOptVal oid v) f tail := by
  have hne : ('-' :: '-' :: name) ≠ ['-', '-'] := by simp [hn]
  rw [parseStream_cons_long p f (v :: tail) hne rfl]
  unfold parseLongOption
  rw [show ('-' :: '-' :: name).drop 2 = name from rfl,
    splitFirstEq_of_not_mem hname, hf, ho]

theorem parseStream_short_option_step (p : ArgParser) (f : Bool) (c : Char)
    (v : Str) (tail : List Str) (oid : Nat) (hdig : ¬c.isDigit)
    (hdash : c ≠ '-') (hceq : c ≠ '=')
    (hf : lookup p.st.flags [c] = none)
    (ho : lookup p.st.options [c] = some oid) :
    parseStream p f (['-', c] :: v :: tail) =
      parseStream (p.pushOptVal oid v) f tail := by
  have hne : (['-', c] : Str) ≠ ['-', '-'] := by simp [hdash]
  have h2 : (['-', c] : Str).take 2 ≠ ['-', '-'] := by simp [List.take, hdash]
  rw [parseStream_cons_short p f (v :: tail) hne h2 rfl (by simp [hdig])]
  unfold parseShortOption
  rw [show (['-', c] : Str).drop 1 = [c] from rfl,
    splitFirstEq_of_not_mem (by simp [Ne.symm hceq])]
  unfold parseShortChars
  rw [hf, ho]
  dsimp only
  unfold parseShortChars
  rfl

/-! ## Claim C5: the `"--"` separator -/

/-- C5: once the exact token `--` is encountered at a scope, every remaining
token of that scope's stream, including tokens beginning with `-`, is
appended verbatim and in order to the scope's positional arguments, with no
further flag, option, or command interpretation (flag counters, option
values and the matched-command name are untouched). -/
theorem claim5_double_dash_positional (p : ArgParser) (f : Bool)
    (rest : List Str)
    (hv : p.st.argcount.isValid (p.st.pos_args.length + rest.length) = true) :
    ∃ r, parseStream p f (['-', '-'] :: rest) = .ok r ∧
      r.st.pos_args = p.st.pos_args ++ rest ∧
      r.st.flagStore = p.st.flagStore ∧
      r.st.optionStore = p.st.optionStore ∧
      r.st.command_name = p.st.command_name := by
  rw [parseStream_cons_dashdash]
  refine ⟨p.modifySt fun s => { s with pos_args := s.pos_args ++ rest },
    ?_, by simp, by simp, by simp, by simp⟩
  unfold finishParse
  rw [if_pos (by simpa using hv)]

theorem claim5_double_dash_positional_witness :
    (ArgParser.make [] []).st.argcount.isValid
        ((ArgParser.make [] []).st.pos_args.length + 2) = true ∧
    ∃ r, parseStream (ArgParser.make [] []) true
        [['-', '-'], ['-', 'x'], "--foo".toList] = .ok r ∧
      r.st.pos_args = [] ++ [['-', 'x'], "--foo".toList] ∧
      r.st.flagStore = [] ∧ r.st.optionStore = [] ∧ r.st.command_name = [] :=
  ⟨by decide,
   claim5_double_dash_positional (ArgParser.make [] []) true
     [['-', 'x'], "--foo".toList] (by decide)⟩

/-! ## Claim C7: the required-positional-count check -/

/-- C7: when the token stream is exhausted without an earlier terminal
action, a scope that declared a required-positional-count constraint via
`setArgsRequired(n, accept_more)` raises the "invalid number of arguments"
error iff the captured positional count fails the constraint: not equal to
`n` in exact mode, less than `n` in accept-more mode.  Part one: any parse
that returns normally satisfied the constraint.  Part two: at the
end-of-stream check the error is raised exactly when the constraint fails. -/
theorem claim7_required_count (p : ArgParser) (n : Nat) (more : Bool) :
    (∀ (f : Bool) (s : List Str) (r : ArgParser),
        parseStream (p.setArgsRequired n more) f s = .ok r →
        (if more then n ≤ r.st.pos_args.length else r.st.pos_args.length = n)) ∧
    (∀ f : Bool, parseStream (p.setArgsRequired n more) f [] =
        if (if more then n ≤ p.st.pos_args.length else p.st.pos_args.length = n)
        then .ok (p.setArgsRequired n more)
        else .error (.err errInvalidArgs)) := by
  constructor
  · intro f s r h
    obtain ⟨⟨_, _, _, hac⟩, hvalid⟩ :=
      parseStreamF_ok_inv s.length (p.setArgsRequired n more) f s r h
    rw [hac] at hvalid
    simp only [st_setArgsRequired] at hvalid
    cases more with
    | false => simpa using (isValid_check_eq n r.st.pos_args.length).mp (by simpa using hvalid)
    | true => simpa using (isValid_check_ge n r.st.pos_args.length).mp (by simpa using hvalid)
  · intro f
    rw [parseStream_nil]
    unfold finishParse
    cases more with
    | false =>
      by_cases hc : p.st.pos_args.length = n
      · rw [if_pos (by simp [SizeCheck.isValid, hc]), if_pos (by simpa using hc)]
      · rw [if_neg (by simp [SizeCheck.isValid, hc]), if_neg (by simpa using hc)]
    | true =>
      by_cases hc : n ≤ p.st.pos_args.length
      · rw [if_pos (by simp [SizeCheck.isValid, hc]), if_pos (by simpa using hc)]
      · rw [if_neg (by simp [SizeCheck.isValid, hc]), if_neg (by simpa using hc)]

theorem claim7_required_count_witness :
    parseStream ((ArgParser.make [] []).setArgsRequired 1 false) true [] =
      .error (.err errInvalidArgs) := by
  have h := (claim7_required_count (ArgParser.make [] []) 1 false).2 true
  simpa using h

/-! ## Claim C8: queries are total -/

/-- C8: for every name, including names never registered, the post-parse
queries are total: when the name is registered neither as a flag nor as an
option, `count` returns 0, `value` the empty string, `values` the empty
sequence, and `found` false. -/
theorem claim8_queries_total (p : ArgParser) (name : Str)
    (hf : lookup p.st.flags name = none)
    (ho : lookup p.st.options name = none) :
    p.count name = 0 ∧ p.value name = [] ∧ p.values name = [] ∧
      p.found name = false := by
  unfold ArgParser.found ArgParser.count ArgParser.value ArgParser.values
  rw [hf, ho]
  simp [ArgParser.count, hf, ho]

theorem claim8_queries_total_witness :
    lookup fooFlagParser.st.flags "bar".toList = none ∧
    lookup fooFlagParser.st.options "bar".toList = none ∧
    (fooFlagParser.count "bar".toList = 0 ∧
     fooFlagParser.value "bar".toList = [] ∧
     fooFlagParser.values "bar".toList = [] ∧
     fooFlagParser.found "bar".toList = false) :=
  ⟨by decide, by decide,
   claim8_queries_total fooFlagParser "bar".toList (by decide) (by decide)⟩

/-! ## Claim C10: the `argc`-guarded overload -/

/-- C10: `parse(argc, argv)` with `argc <= 1` returns without building a
stream from `argv`: the parser is returned unchanged and the
required-positional-count check is not performed, whatever `argv` holds. -/
theorem claim10_argc_guard (p : ArgParser) (argc : Nat) (argv : List Str)
    (h : argc ≤ 1) : p.parseCLine argc argv = .ok p := by
  unfold ArgParser.parseCLine
  rw [if_neg (by omega)]

theorem claim10_argc_guard_witness :
    1 ≤ 1 ∧
    ((ArgParser.make [] []).setArgsRequired 1 false).parseCLine 1
        ["prog".toList] =
      .ok ((ArgParser.make [] []).setArgsRequired 1 false) :=
  ⟨Nat.le_refl 1,
   claim10_argc_guard ((ArgParser.make [] []).setArgsRequired 1 false) 1
     ["prog".toList] (Nat.le_refl 1)⟩

/-! ## Claim C4: aliases of one flag share one counter -/

/-- C4: all aliases registered together by one `flag` call share one counter
entity.  Part one: right after registration every pair of aliases resolves to
the same entity id, namely the id of the freshly appended counter.  Part two:
after any successful parse, `count` queried through any alias equals `count`
queried through any other alias of the same registration.  Parts three and
four: the round trip of the claim — after parsing `["-f"]` or `["--foo"]`
against `flag("foo f")`, both `found("foo")` and `found("f")` are true. -/
theorem claim4_flag_alias_sharing (p : ArgParser) (nm hint a b : Str)
    (ha : a ∈ splitWords nm) (hb : b ∈ splitWords nm) :
    (lookup (p.flag nm hint).st.flags a = some p.st.flagStore.length ∧
     lookup (p.flag nm hint).st.flags b = some p.st.flagStore.length) ∧
    (∀ (f : Bool) (s : List Str) (r : ArgParser),
        parseStream (p.flag nm hint) f s = .ok r → r.count a = r.count b) ∧
    ((fooFlagParser.parse [['-', 'f']]).map
        (fun r => (r.found "foo".toList, r.found ['f'])) = .ok (true, true)) ∧
    ((fooFlagParser.parse ["--foo".toList]).map
        (fun r => (r.found "foo".toList, r.found ['f'])) = .ok (true, true)) := by
  refine ⟨⟨by simp [lookup_registerAliases _ ha], by simp [lookup_registerAliases _ hb]⟩,
    ?_, rfl, rfl⟩
  intro f s r h
  obtain ⟨⟨hfl, _, _, _⟩, _⟩ :=
    parseStreamF_ok_inv s.length (p.flag nm hint) f s r h
  have hla : lookup r.st.flags a = some p.st.flagStore.length := by
    rw [hfl]; simp [lookup_registerAliases _ ha]
  have hlb : lookup r.st.flags b = some p.st.flagStore.length := by
    rw [hfl]; simp [lookup_registerAliases _ hb]
  unfold ArgParser.count
  rw [hla, hlb]

theorem claim4_flag_alias_sharing_witness :
    "foo".toList ∈ splitWords "foo f".toList ∧
    ['f'] ∈ splitWords "foo f".toList ∧
    ((lookup fooFlagParser.st.flags "foo".toList = some 0 ∧
      lookup fooFlagParser.st.flags ['f'] = some 0) ∧
     (∀ (f : Bool) (s : List Str) (r : ArgParser),
        parseStream fooFlagParser f s = .ok r →
        r.count "foo".toList = r.count ['f']) ∧
     ((fooFlagParser.parse [['-', 'f']]).map
        (fun r => (r.found "foo".toList, r.found ['f'])) = .ok (true, true)) ∧
     ((fooFlagParser.parse ["--foo".toList]).map
        (fun r => (r.found "foo".toList, r.found ['f'])) = .ok (true, true))) :=
  ⟨by decide, by decide,
   claim4_flag_alias_sharing (ArgParser.make [] []) "foo f".toList [] "foo".toList
     ['f'] (by decide) (by decide)⟩

/-! ## Claim C9: `command()` resets the parent's required count to zero -/

/-- C9: registering a command sets the parent parser's own
required-positional-count constraint to "exactly zero".  Consequently (with
no later `setArgsRequired` call) no parse of the parent's own scope can
return normally with a captured positional argument (part two), and a stream
consisting of one plain positional token terminates with the
"invalid number of arguments" error (part three). -/
theorem claim9_command_zero_args (p : ArgParser) (nm helpmsg hint : Str) :
    (p.command nm helpmsg hint).1.st.argcount = ⟨0, .check_eq⟩ ∧
    (∀ (f : Bool) (s : List Str) (r : ArgParser),
        parseStream (p.command nm helpmsg hint).1 f s = .ok r →
        r.st.pos_args = []) ∧
    (∀ t : Str, t.head? ≠ some '-' →
        lookup (p.command nm helpmsg hint).1.st.commands t = none →
        t ≠ "help".toList →
        parseStream (p.command nm helpmsg hint).1 true [t] =
          .error (.err errInvalidArgs)) := by
  refine ⟨by simp, ?_, ?_⟩
  · intro f s r h
    obtain ⟨⟨_, _, _, hac⟩, hvalid⟩ :=
      parseStreamF_ok_inv s.length (p.command nm helpmsg hint).1 f s r h
    rw [hac] at hvalid
    simp only [st_command_fst] at hvalid
    have := (isValid_check_eq 0 r.st.pos_args.length).mp (by simpa using hvalid)
    exact List.length_eq_zero.mp this
  · intro t h1 hcmd hhelp
    rw [parseStream_cons_plain _ true [] h1
      (by unfold cmdChild; rw [if_pos rfl, hcmd])
      (fun hcon => hhelp hcon.2.1)]
    rw [parseStream_nil]
    unfold finishParse
    rw [if_neg (by simp [SizeCheck.isValid])]

theorem claim9_command_zero_args_witness :
    flagCmdParser.st.argcount = ⟨0, .check_eq⟩ ∧
    ("pos".toList.head? ≠ some '-' ∧
     lookup flagCmdParser.st.commands "pos".toList = none ∧
     "pos".toList ≠ "help".toList) ∧
    parseStream flagCmdParser true ["pos".toList] =
      .error (.err errInvalidArgs) := by
  have h := claim9_command_zero_args ((ArgParser.make [] []).flag ['a'] [])
    "cmd".toList [] []
  exact ⟨h.1, ⟨by decide, by decide, by decide⟩,
    h.2.2 "pos".toList (by decide) (by decide) (by decide)⟩

/-! ## Claim C6: the long-form `=`-option rule -/

/-- C6: a long-form token containing `=` is split at the first `=` into name
and value.  The value is stored iff the name resolves to a registered Option
and the value is non-empty (part one); an empty value is a "missing value"
error (part two); a name that does not resolve to an Option — in particular
a name registered only as a Flag — is a "not a recognised option" error,
because this code path only consults the option registry (part three, which
assumes nothing about the flag registry). -/
theorem claim6_equals_option (p : ArgParser) (f : Bool) (name v : Str)
    (tail : List Str) (hname : '=' ∉ name) :
    (∀ oid, lookup p.st.options name = some oid → v ≠ [] →
        parseStream p f (('-' :: '-' :: (name ++ '=' :: v)) :: tail) =
          parseStream (p.pushOptVal oid v) f tail) ∧
    (∀ oid, lookup p.st.options name = some oid → v = [] →
        parseStream p f (('-' :: '-' :: (name ++ '=' :: v)) :: tail) =
          .error (.err ("Error: missing value for ".toList ++ "--".toList
            ++ name ++ ".\n".toList))) ∧
    (lookup p.st.options name = none →
        parseStream p f (('-' :: '-' :: (name ++ '=' :: v)) :: tail) =
          .error (.err ("Error: ".toList ++ "--".toList ++ name
            ++ " is not a recognised option.\n".toList))) := by
  have hne : ('-' :: '-' :: (name ++ '=' :: v)) ≠ ['-', '-'] := by simp
  have h2 : ('-' :: '-' :: (name ++ '=' :: v)).take 2 = ['-', '-'] := rfl
  have hstep :=
    parseStream_cons_long (a := '-' :: '-' :: (name ++ '=' :: v)) p f tail hne h2
  refine ⟨?_, ?_, ?_⟩
  · intro oid ho hv
    rw [hstep]
    unfold parseLongOption
    rw [show ('-' :: '-' :: (name ++ '=' :: v)).drop 2 = name ++ '=' :: v from rfl,
      splitFirstEq_append hname]
    dsimp only
    unfold parseEqualsOption
    rw [ho]
    dsimp only
    rw [if_pos hv]
    rfl
  · intro oid ho hv
    rw [hstep]
    unfold parseLongOption
    rw [show ('-' :: '-' :: (name ++ '=' :: v)).drop 2 = name ++ '=' :: v from rfl,
      splitFirstEq_append hname]
    dsimp only
    unfold parseEqualsOption
    rw [ho]
    dsimp only
    rw [if_neg (by simp [hv])]
    rfl
  · intro ho
    rw [hstep]
    unfold parseLongOption
    rw [show ('-' :: '-' :: (name ++ '=' :: v)).drop 2 = name ++ '=' :: v from rfl,
      splitFirstEq_append hname]
    dsimp only
    unfold parseEqualsOption
    rw [ho]
    dsimp only
    rfl

theorem claim6_equals_option_witness :
    ('=' ∉ "bar".toList ∧ lookup barOptParser.st.options "bar".toList = some 0 ∧
      ("x".toList : Str) ≠ []) ∧
    parseStream barOptParser true ["--bar=x".toList] =
      parseStream (barOptParser.pushOptVal 0 "x".toList) true [] ∧
    parseStream barOptParser true ["--bar=".toList] =
      .error (.err ("Error: missing value for ".toList ++ "--".toList
        ++ "bar".toList ++ ".\n".toList)) ∧
    parseStream fooFlagParser true ["--foo=x".toList] =
      .error (.err ("Error: ".toList ++ "--".toList ++ "foo".toList
        ++ " is not a recognised option.\n".toList)) := by
  have h1 := (claim6_equals_option barOptParser true "bar".toList "x".toList []
    (by decide)).1 0 (by decide) (by decide)
  have h2 := (claim6_equals_option barOptParser true "bar".toList [] []
    (by decide)).2.1 0 (by decide) rfl
  have h3 := (claim6_equals_option fooFlagParser true "foo".toList "x".toList []
    (by decide)).2.2 (by decide)
  exact ⟨⟨by decide, by decide, by decide⟩, h1, h2, h3⟩

/-! ## Claim C1: when is a command alias dispatched?  (corrected)

The claim asserts that a token matching a command alias is dispatched only
when it is literally the first token the scope sees, and in particular that
after an earlier flag or option token a command alias is no longer
dispatched.  The code keeps `is_first_arg` true across the `--`, long-form,
short-form and dash-positional branches: only the final plain-positional
branch clears it.  So a command alias after a flag token IS dispatched. -/

/-- C1 counterexample: with `flag("a")` and `command("cmd")` registered,
parsing `["-a", "cmd"]` processes the flag token `-a` first, and the later
`cmd` token is nevertheless dispatched as a command: the matched command
name is `cmd`, no positional argument is captured, and the flag counter was
incremented.  Under the claim, `cmd` would have had to become a positional
argument instead. -/
theorem claim1_counterexample :
    (flagCmdParser.parse [['-', 'a'], "cmd".toList]).map
      (fun r => (r.st.command_name, r.st.pos_args,
        r.st.flagStore.map FlagE.count)) =
      .ok ("cmd".toList, [], [1]) := rfl

/-- C1 amended: a token equal to a registered command alias is dispatched as
a command iff no plain positional token has yet been captured at this scope.
Part one: once a plain positional has been processed (`is_first_arg` false),
a non-dash token — even one matching a command alias — is appended to the
positional arguments.  Part two: a flag token does not close the command
window: after `-c` (a registered flag), a following command-alias token is
still dispatched and recorded as the matched command. -/
theorem claim1_amended (p : ArgParser) :
    (∀ (t : Str) (rest : List Str), t.head? ≠ some '-' →
        parseStream p false (t :: rest) =
          parseStream (p.appendPos t) false rest) ∧
    (∀ (c : Char) (fid : Nat) (t : Str) (cid : Nat) (child child2 : ArgParser)
        (rest : List Str),
        lookup p.st.flags [c] = some fid → ¬c.isDigit → c ≠ '-' → c ≠ '=' →
        t.head? ≠ some '-' →
        lookup p.st.commands t = some cid →
        p.commandStore[cid]? = some child →
        parseStream child true rest = .ok child2 →
        p.st.argcount.isValid p.st.pos_args.length = true →
        ∃ r, parseStream p true (['-', c] :: t :: rest) = .ok r ∧
          r.st.command_name = t ∧ r.st.pos_args = p.st.pos_args) := by
  constructor
  · intro t rest h1
    exact parseStream_cons_plain p false rest h1 rfl (by simp)
  · intro c fid t cid child child2 rest hfc hdig hdash heq h1 hcmd hstore
      hchild hv
    have hne : (['-', c] : Str) ≠ ['-', '-'] := by simp [hdash]
    have h2 : (['-', c] : Str).take 2 ≠ ['-', '-'] := by simp [List.take, hdash]
    rw [parseStream_cons_short p true (t :: rest) hne h2 rfl
      (by simp [hdig])]
    unfold parseShortOption
    rw [show (['-', c] : Str).drop 1 = [c] from rfl,
      splitFirstEq_of_not_mem (by simp [Ne.symm heq])]
    unfold parseShortChars
    rw [hfc]
    unfold parseShortChars
    dsimp only
    rw [parseStream_cons_command (p.incrFlag fid) true rest h1
      (by unfold cmdChild
          rw [if_pos rfl]
          simp only [st_incrFlag]
          rw [hcmd]
          simp only [commandStore_incrFlag]
          rw [hstore]
          rfl),
      hchild]
    dsimp only
    refine ⟨((p.incrFlag fid).setChild cid child2).modifySt
      (fun s => { s with command_name := t }), ?_, by simp, by simp⟩
    unfold finishParse
    rw [if_pos (by simpa using hv)]

theorem claim1_amended_witness :
    (lookup flagCmdParser.st.flags ['a'] = some 0 ∧
     lookup flagCmdParser.st.commands "cmd".toList = some 0 ∧
     flagCmdParser.commandStore[0]? = some (ArgParser.make [] []) ∧
     parseStream (ArgParser.make [] []) true [] = .ok (ArgParser.make [] []) ∧
     flagCmdParser.st.argcount.isValid flagCmdParser.st.pos_args.length = true) ∧
    (∃ r, parseStream flagCmdParser true [['-', 'a'], "cmd".toList] = .ok r ∧
       r.st.command_name = "cmd".toList ∧
       r.st.pos_args = flagCmdParser.st.pos_args) ∧
    parseStream flagCmdParser false ["cmd".toList] =
      parseStream (flagCmdParser.appendPos "cmd".toList) false [] :=
  ⟨⟨by decide, by decide, rfl, rfl, by decide⟩,
   (claim1_amended flagCmdParser).2 'a' 0 "cmd".toList 0 (ArgParser.make [] [])
     (ArgParser.make [] []) [] (by decide) (by decide) (by decide) (by decide)
     (by decide) (by decide) rfl rfl (by decide),
   (claim1_amended flagCmdParser).1 "cmd".toList [] (by decide)⟩

/-! ## Claim C2: short-form clusters  (corrected)

The claim asserts that at most one registered Option may appear in a
cluster and that it must be the last character.  The code resolves each
cluster character independently and lets an option character consume the
next still-unconsumed stream token, then continues with the remaining
characters, so several options may appear anywhere in one cluster. -/

/-- C2 counterexample: with options `a` and `b` registered, the cluster
`-ab` — two options, the first not in last position — parses successfully:
`a` consumes `x` and `b` consumes `y`.  Under the claim this token stream
would have to be rejected (only one option allowed, and only in last
position). -/
theorem claim2_counterexample :
    (optClusterParser.parse [['-', 'a', 'b'], ['x'], ['y']]).map
      (fun r => (r.values ['a'], r.values ['b'], r.st.pos_args)) =
      .ok ([['x']], [['y']], []) := rfl

/-- C2 amended: in a short-form cluster each character is resolved
independently; each flag character increments its flag's counter (part one),
each option character consumes the next remaining stream token as its value,
so several options may appear at any positions in one cluster, consuming
successive stream tokens in cluster order (part two), and an option
character reached with the stream exhausted is a "missing argument" error
naming the character and the cluster (part three). -/
theorem claim2_amended (p : ArgParser) (f : Bool) (a b : Char)
    (hadig : ¬a.isDigit) (hadash : a ≠ '-') (haeq : a ≠ '=') (hbeq : b ≠ '=') :
    (∀ (fida fidb : Nat) (tail : List Str),
        lookup p.st.flags [a] = some fida →
        lookup p.st.flags [b] = some fidb →
        parseStream p f (['-', a, b] :: tail) =
          parseStream ((p.incrFlag fida).incrFlag fidb) f tail) ∧
    (∀ (oida oidb : Nat) (v1 v2 : Str) (tail : List Str),
        lookup p.st.flags [a] = none → lookup p.st.options [a] = some oida →
        lookup p.st.flags [b] = none → lookup p.st.options [b] = some oidb →
        parseStream p f (['-', a, b] :: v1 :: v2 :: tail) =
          parseStream ((p.pushOptVal oida v1).pushOptVal oidb v2) f tail) ∧
    (∀ oida : Nat,
        lookup p.st.flags [a] = none → lookup p.st.options [a] = some oida →
        parseStream p f [['-', a, b]] =
          .error (.err ("Error: missing argument for '".toList ++ [a]
            ++ "' in -".toList ++ [a, b] ++ ".\n".toList))) := by
  have hne : (['-', a, b] : Str) ≠ ['-', '-'] := by simp
  have h2 : (['-', a, b] : Str).take 2 ≠ ['-', '-'] := by
    simp [List.take, hadash]
  have hsplit : splitFirstEq [a, b] = none :=
    splitFirstEq_of_not_mem (by simp [Ne.symm haeq, Ne.symm hbeq])
  refine ⟨?_, ?_, ?_⟩
  · intro fida fidb tail hfa hfb
    rw [parseStream_cons_short p f tail hne h2 rfl (by simp [hadig])]
    unfold parseShortOption
    rw [show (['-', a, b] : Str).drop 1 = [a, b] from rfl, hsplit]
    unfold parseShortChars
    rw [hfa]
    unfold parseShortChars
    rw [show (p.incrFlag fida).st.flags = p.st.flags from by simp, hfb]
    unfold parseShortChars
    rfl
  · intro oida oidb v1 v2 tail hfa hoa hfb hob
    rw [parseStream_cons_short p f (v1 :: v2 :: tail) hne h2 rfl
      (by simp [hadig])]
    unfold parseShortOption
    rw [show (['-', a, b] : Str).drop 1 = [a, b] from rfl, hsplit]
    unfold parseShortChars
    rw [hfa, hoa]
    dsimp only
    unfold parseShortChars
    rw [show (p.pushOptVal oida v1).st.flags = p.st.flags from by simp,
      show (p.pushOptVal oida v1).st.options = p.st.options from by simp,
      hfb, hob]
    dsimp only
    unfold parseShortChars
    rfl
  · intro oida hfa hoa
    rw [parseStream_cons_short p f [] hne h2 rfl (by simp [hadig])]
    unfold parseShortOption
    rw [show (['-', a, b] : Str).drop 1 = [a, b] from rfl, hsplit]
    unfold parseShortChars
    rw [hfa, hoa]
    rfl

theorem claim2_amended_witness :
    (lookup optClusterParser.st.flags ['a'] = none ∧
     lookup optClusterParser.st.options ['a'] = some 0 ∧
     lookup optClusterParser.st.flags ['b'] = none ∧
     lookup optClusterParser.st.options ['b'] = some 1 ∧
     lookup abFlagParser.st.flags ['a'] = some 0 ∧
     lookup abFlagParser.st.flags ['b'] = some 1) ∧
    (parseStream abFlagParser true [['-', 'a', 'b']] =
      parseStream ((abFlagParser.incrFlag 0).incrFlag 1) true []) ∧
    (parseStream optClusterParser true [['-', 'a', 'b'], ['x'], ['y']] =
      parseStream ((optClusterParser.pushOptVal 0 ['x']).pushOptVal 1 ['y'])
        true []) ∧
    (parseStream optClusterParser true [['-', 'a', 'b']] =
      .error (.err ("Error: missing argument for '".toList ++ ['a']
        ++ "' in -".toList ++ ['a', 'b'] ++ ".\n".toList))) := by
  have h := claim2_amended optClusterParser true 'a' 'b' (by decide) (by decide)
    (by decide) (by decide)
  have hf := claim2_amended abFlagParser true 'a' 'b' (by decide) (by decide)
    (by decide) (by decide)
  exact ⟨⟨by decide, by decide, by decide, by decide, by decide, by decide⟩,
    hf.1 0 1 [] (by decide) (by decide),
    h.2.1 0 1 ['x'] ['y'] [] (by decide) (by decide) (by decide) (by decide),
    h.2.2 0 (by decide) (by decide)⟩

/-! ## Claim C3: option values accumulate in supply order -/

/-- Running a whole supply script (`--long=v` / `--long v` / `-c v` tokens,
where `long` and `c` are aliases of one shared option entity) appends the
script's values, in order, to that entity's value sequence, and touches
nothing else of the parser state. -/
theorem scriptTokens_run (long : Str) (c : Char) (hlne : long ≠ [])
    (hleq : '=' ∉ long) (hcdash : c ≠ '-') (hceq : c ≠ '=')
    (hcdig : ¬c.isDigit) :
    ∀ (script : List Supply) (p : ArgParser) (f : Bool) (oid : Nat)
      (o : OptionE),
    lookup p.st.flags long = none →
    lookup p.st.options long = some oid →
    lookup p.st.flags [c] = none →
    lookup p.st.options [c] = some oid →
    p.st.optionStore[oid]? = some o →
    (∀ v, Supply.eqF v ∈ script → v ≠ []) →
    p.st.argcount.isValid p.st.pos_args.length = true →
    parseStream p f (scriptTokens long c script) =
      .ok (p.modifySt fun s =>
        { s with optionStore := (s.optionStore.set oid
            { o with values := o.values ++ script.map Supply.val }) }) := by
  intro script
  induction script with
  | nil =>
    intro p f oid o hfl hol hfc hoc hstore hnev hv
    rw [show scriptTokens long c [] = [] from rfl, parseStream_nil]
    unfold finishParse
    rw [if_pos hv]
    have hid : (p.modifySt fun s =>
        { s with optionStore := (s.optionStore.set oid
            { o with values := o.values ++ ([] : List Supply).map Supply.val }) })
        = p := by
      have h1 : (p.modifySt fun s =>
          { s with optionStore := (s.optionStore.set oid
              { o with values := o.values ++ ([] : List Supply).map Supply.val }) })
          = p.modifySt fun s => s := by
        apply modifySt_congr
        rw [show ({ o with values := o.values ++ ([] : List Supply).map Supply.val }
            : OptionE) = o from by simp, set_self hstore]
      rw [h1, modifySt_id]
    rw [hid]
  | cons sp rest ih =>
    intro p f oid o hfl hol hfc hoc hstore hnev hv
    have hpush : ∀ v : Str, p.pushOptVal oid v = p.modifySt fun s =>
        { s with optionStore := (s.optionStore.set oid
            { o with values := o.values ++ [v] }) } := fun v =>
      modifySt_congr (by rw [modifyIdx_eq_set _ hstore])
    have cont : ∀ v : Str,
        parseStream (p.pushOptVal oid v) f (scriptTokens long c rest) =
          .ok (p.modifySt fun s =>
            { s with optionStore := (s.optionStore.set oid
                { o with values := o.values ++ v :: rest.map Supply.val }) }) := by
      intro v
      rw [hpush v]
      rw [ih (p.modifySt fun s =>
          { s with optionStore := (s.optionStore.set oid
              { o with values := o.values ++ [v] }) }) f oid
          { o with values := o.values ++ [v] }
          (by simp only [st_modifySt]; exact hfl)
          (by simp only [st_modifySt]; exact hol)
          (by simp only [st_modifySt]; exact hfc)
          (by simp only [st_modifySt]; exact hoc)
          (by simp only [st_modifySt]; exact getElem?_set_same hstore)
          (fun w hw => hnev w (List.mem_cons_of_mem _ hw))
          (by simp only [st_modifySt]; exact hv)]
      rw [modifySt_modifySt]
      congr 1
      apply modifySt_congr
      dsimp only
      rw [List.set_set]
      congr 2
      simp [List.append_assoc]
    cases sp with
    | eqF v =>
      rw [show scriptTokens long c (Supply.eqF v :: rest) =
        ('-' :: '-' :: (long ++ '=' :: v)) :: scriptTokens long c rest from rfl]
      rw [parseStream_eq_option_step p f long v (scriptTokens long c rest) oid
        hleq hol (hnev v (List.mem_cons_self _ _))]
      exact cont v
    | longF v =>
      rw [show scriptTokens long c (Supply.longF v :: rest) =
        ('-' :: '-' :: long) :: v :: scriptTokens long c rest from rfl]
      rw [parseStream_long_option_step p f long v (scriptTokens long c rest) oid
        hlne hleq hfl hol]
      exact cont v
    | shortF v =>
      rw [show scriptTokens long c (Supply.shortF v :: rest) =
        ['-', c] :: v :: scriptTokens long c rest from rfl]
      rw [parseStream_short_option_step p f c v (scriptTokens long c rest) oid
        hcdig hcdash hceq hfc hoc]
      exact cont v

/-- Queries through any alias of an option entity read the entity stored at
the shared id. -/
theorem values_modify_set (p : ArgParser) (oid : Nat) (o0 onew : OptionE)
    (name : Str) (ho : lookup p.st.options name = some oid)
    (hstore : p.st.optionStore[oid]? = some o0) :
    (p.modifySt fun s =>
      { s with optionStore := (s.optionStore.set oid onew) }).values name
      = onew.values ∧
    (p.modifySt fun s =>
      { s with optionStore := (s.optionStore.set oid onew) }).value name
      = ((onew.values.getLast?).getD onew.fallback) := by
  constructor
  · simp only [ArgParser.values, st_modifySt, ho, getElem?_set_same hstore]
    rfl
  · simp only [ArgParser.value, st_modifySt, ho, getElem?_set_same hstore]
    cases hgl : onew.values.getLast? <;> simp [hgl]

/-- C3: for a registered option reachable through the long alias `long` and
the single-character alias `c` (one shared entity with empty initial value
sequence and fallback `fb`), and every script of valid value-supplying
tokens (`--long=x` with non-empty `x`, `--long y`, `-c z`), the parse
succeeds, `values` returns the supplied values in supply order through
either alias, and `value` returns the last supplied value, or the fallback
when no value was ever supplied. -/
theorem claim3_option_value_order (p : ArgParser) (f : Bool) (long : Str)
    (c : Char) (oid : Nat) (fb hint : Str) (script : List Supply)
    (hlne : long ≠ []) (hleq : '=' ∉ long) (hcdash : c ≠ '-') (hceq : c ≠ '=')
    (hcdig : ¬c.isDigit)
    (hfl : lookup p.st.flags long = none)
    (hol : lookup p.st.options long = some oid)
    (hfc : lookup p.st.flags [c] = none)
    (hoc : lookup p.st.options [c] = some oid)
    (hstore : p.st.optionStore[oid]? = some ⟨[], fb, hint⟩)
    (hnev : ∀ v, Supply.eqF v ∈ script → v ≠ [])
    (hv : p.st.argcount.isValid p.st.pos_args.length = true) :
    ∃ r, parseStream p f (scriptTokens long c script) = .ok r ∧
      r.values long = script.map Supply.val ∧
      r.values [c] = script.map Supply.val ∧
      r.value long = ((script.map Supply.val).getLast?).getD fb ∧
      r.value [c] = ((script.map Supply.val).getLast?).getD fb := by
  have hrun := scriptTokens_run long c hlne hleq hcdash hceq hcdig script p f
    oid ⟨[], fb, hint⟩ hfl hol hfc hoc hstore hnev hv
  refine ⟨_, hrun, ?_, ?_, ?_, ?_⟩
  · rw [(values_modify_set p oid ⟨[], fb, hint⟩ _ long hol hstore).1]
    simp
  · rw [(values_modify_set p oid ⟨[], fb, hint⟩ _ [c] hoc hstore).1]
    simp
  · rw [(values_modify_set p oid ⟨[], fb, hint⟩ _ long hol hstore).2]
    simp
  · rw [(values_modify_set p oid ⟨[], fb, hint⟩ _ [c] hoc hstore).2]
    simp

theorem claim3_option_value_order_witness :
    ("bar".toList ≠ [] ∧ lookup barOptParser.st.flags "bar".toList = none ∧
     lookup barOptParser.st.options "bar".toList = some 0 ∧
     lookup barOptParser.st.flags ['b'] = none ∧
     lookup barOptParser.st.options ['b'] = some 0 ∧
     barOptParser.st.optionStore[0]? = some ⟨[], "dft".toList, []⟩) ∧
    (∃ r, parseStream barOptParser true
        (scriptTokens "bar".toList 'b'
          [.eqF "x".toList, .longF "y".toList, .shortF "z".toList]) = .ok r ∧
      r.values "bar".toList =
        ([.eqF "x".toList, .longF "y".toList, .shortF "z".toList].map
          Supply.val) ∧
      r.values ['b'] =
        ([.eqF "x".toList, .longF "y".toList, .shortF "z".toList].map
          Supply.val) ∧
      r.value "bar".toList =
        ((([.eqF "x".toList, .longF "y".toList, .shortF "z".toList].map
          Supply.val).getLast?).getD "dft".toList) ∧
      r.value ['b'] =
        ((([.eqF "x".toList, .longF "y".toList, .shortF "z".toList].map
          Supply.val).getLast?).getD "dft".toList)) ∧
    (∃ r0, parseStream barOptParser true (scriptTokens "bar".toList 'b' []) =
        .ok r0 ∧
      r0.values "bar".toList = ([] : List Supply).map Supply.val ∧
      r0.values ['b'] = ([] : List Supply).map Supply.val ∧
      r0.value "bar".toList =
        ((([] : List Supply).map Supply.val).getLast?).getD "dft".toList ∧
      r0.value ['b'] =
        ((([] : List Supply).map Supply.val).getLast?).getD "dft".toList) := by
  refine ⟨⟨by decide, by decide, by decide, by decide, by decide, by decide⟩,
    ?_, ?_⟩
  · exact claim3_option_value_order barOptParser true "bar".toList 'b' 0
      "dft".toList [] [.eqF "x".toList, .longF "y".toList, .shortF "z".toList]
      (by decide) (by decide) (by decide) (by decide) (by decide) (by decide)
      (by decide) (by decide) (by decide) (by decide)
      (by intro v hvm
          simp only [List.mem_cons, List.mem_singleton] at hvm
          rcases hvm with h | h | h
          · rw [show v = "x".toList from by injection h]; decide
          · exact absurd h (by simp)
          · exact absurd h (by simp))
      (by decide)
  · exact claim3_option_value_order barOptParser true "bar".toList 'b' 0
      "dft".toList [] []
      (by decide) (by decide) (by decide) (by decide) (by decide) (by decide)
      (by decide) (by decide) (by decide) (by decide)
      (by intro v hvm; exact absurd hvm (by simp))
      (by decide)

end Argspp
